import Mathlib

/-!
Verification of the GDGoist-ATS-Leaderboard scoring core
(`ats-service/app/services/scorer.py` and `ats-service/app/utils/text_cleaner.py`).

The Python code is shallowly embedded:
* Python `str` becomes `String` (a wrapper around `List Char`); Python's
  substring test `needle in hay` becomes `containsSub`, `str.lower` becomes
  `lowerStr` (ASCII case mapping, which is all the scorer's fixed keyword
  lists exercise), `str.count` becomes `countOccs`, `'; '.join` becomes
  `String.intercalate`.
* Python floats become `ℚ`; every numeric literal of the scorer is an exact
  decimal, written here as a rational (`0.35` is `35/100`, …).  Python's
  `round(x, n)` is modelled as round-half-up on exact rationals (`round1`,
  `round2`); the scorer's rounded quantities are used only compared against
  whole thresholds, so the tie-breaking convention is immaterial to the
  claims proved below.
* Results of `re.findall` that would need a full regex engine (explicit
  "N years/months" durations, quantified-achievement matches, project impact
  matches) are supplied as inputs (`total_months`, `metricsCount`,
  `impactCount`), exactly as the counts the Python code derives; the simple
  scan for years `20[12]\d` is embedded concretely (`findYears`).
* The skill list and contact mapping consumed by `compute_heuristics` are
  produced by collaborator modules (`extractor.extract_skills_from_resume`,
  `parser.extract_contact_info`) that the spec places outside the scoring
  core; they are passed in as inputs.
-/

/-! ## Character and string primitives -/

/-- ASCII lower-casing of one character, as Python's `str.lower` acts on the
ASCII range (the only range the scorer's keyword matching exercises). -/
def pyLower (c : Char) : Char :=
  if 'A' ≤ c ∧ c ≤ 'Z' then Char.ofNat (c.toNat + 32) else c

/-- Python `s.lower()`. -/
def lowerStr (s : String) : String := String.mk (s.toList.map pyLower)

/-- Whether `needle` occurs as a contiguous sublist of `hay`
(Python's `needle in hay` on strings). -/
def hasInfix (hay needle : List Char) : Bool :=
  match hay with
  | [] => needle.isEmpty
  | _ :: t => needle.isPrefixOf hay || hasInfix t needle

/-- Python `needle in hay` for strings. -/
def containsSub (hay needle : String) : Bool := hasInfix hay.toList needle.toList

/-- Fuel-indexed helper for `countOccs`; the fuel is the length of the
remaining text, which bounds the number of scan steps. -/
def countOccsAux (needle : List Char) : ℕ → List Char → ℕ
  | 0, _ => 0
  | _, [] => 0
  | fuel + 1, c :: cs =>
    if needle.isPrefixOf (c :: cs) ∧ needle ≠ [] then
      1 + countOccsAux needle fuel (List.drop (needle.length - 1) cs)
    else
      countOccsAux needle fuel cs

/-- Python `hay.count(needle)`: number of non-overlapping occurrences,
scanning left to right. -/
def countOccs (needle hay : List Char) : ℕ := countOccsAux needle hay.length hay

/-- Fuel-indexed helper for `findYears`; the fuel is the length of the
remaining text, which bounds the number of scan steps. -/
def findYearsAux : ℕ → List Char → List (List Char)
  | 0, _ => []
  | _, [] => []
  | fuel + 1, c :: cs =>
    match cs with
    | d0 :: d1 :: d2 :: rest =>
      if c = '2' ∧ d0 = '0' ∧ (d1 = '1' ∨ d1 = '2') ∧ d2.isDigit then
        [c, d0, d1, d2] :: findYearsAux fuel rest
      else
        findYearsAux fuel cs
    | _ => findYearsAux fuel cs

/-- All matches of the regex `20[12]\d` in a character list, scanning left to
right and resuming after each match, as `re.findall` does. -/
def findYears (cs : List Char) : List (List Char) := findYearsAux cs.length cs

/-- Python whitespace for `\s` and `str.split()` / `str.strip()`:
space, tab, newline, carriage return, vertical tab, form feed. -/
def isWsChar (c : Char) : Bool :=
  c = ' ' ∨ c = '\t' ∨ c = '\n' ∨ c = '\r' ∨ c = '\x0B' ∨ c = '\x0C'

/-- Is `c` an ASCII lowercase letter (the class `[a-z]`)? -/
def isAZ (c : Char) : Bool := 'a' ≤ c ∧ c ≤ 'z'

/-- One character of `re.sub(r'[^a-z\s]', ' ', text)`: characters outside
`[a-z\s]` are replaced by a space, the rest are kept. -/
def keepAZWs (c : Char) : Char := if isAZ c ∨ isWsChar c then c else ' '

/-- Core of `str.split()`: fold that groups maximal runs of
non-whitespace characters, possibly leaving empty groups at whitespace. -/
def splitWCore (cs : List Char) : List (List Char) :=
  cs.foldr
    (fun c acc =>
      if isWsChar c then [] :: acc
      else
        match acc with
        | [] => [[c]]
        | w :: ws => (c :: w) :: ws)
    [[]]

/-- Python `text.split()` (split on whitespace runs, dropping empties). -/
def splitW (cs : List Char) : List (List Char) :=
  (splitWCore cs).filter (fun w => w ≠ [])

/-- Join word lists with single spaces (`' '.join`). -/
def joinW : List (List Char) → List Char
  | [] => []
  | w :: ws =>
    match ws with
    | [] => w
    | _ :: _ => w ++ ' ' :: joinW ws

/-! ## `text_cleaner.clean_text` (text_cleaner.py lines 18-55) -/

/-- Embedding of `clean_text(text, stop_words)`.

The source lowercases, replaces `[^a-z\s]` by spaces, collapses whitespace
runs to single spaces and strips the ends (`re.sub(r'\s+', ' ', text).strip()`,
rendered here equivalently as splitting on whitespace and re-joining with
single spaces), and, when a non-empty stopword set is supplied (Python's
`if stop_words:` is false for both `None` and an empty set, hence the
`Option` plus emptiness test), drops the stopwords from the split words. -/
def clean_text (text : String) (stop_words : Option (List String)) : String :=
  if text = "" then ""
  else
    let t1 := text.toList.map pyLower
    let t2 := t1.map keepAZWs
    let t3 := joinW (splitW t2)
    match stop_words with
    | none => String.mk t3
    | some sw =>
      if sw = [] then String.mk t3
      else String.mk (joinW ((splitW t3).filter (fun w => ! sw.contains (String.mk w))))

/-! ## Rounding

Python's `round(x, 1)` / `round(x, 2)` on the scorer's exact decimal
quantities, modelled as round-half-up on rationals. -/

/-- `round(x, 1)`. -/
def round1 (x : ℚ) : ℚ := ((⌊x * 10 + 1 / 2⌋ : ℤ) : ℚ) / 10

/-- `round(x, 2)`. -/
def round2 (x : ℚ) : ℚ := ((⌊x * 100 + 1 / 2⌋ : ℤ) : ℚ) / 100

/-! ## Data shapes -/

/-- The contact mapping produced by `parser.extract_contact_info`
(a collaborator of the scoring core). -/
structure ContactInfo where
  email : Option String
  phone : Option String
deriving DecidableEq

/-- Python truthiness of an optional string (`if contact.get('email'):`):
false for a missing key and for the empty string. -/
def truthyOpt : Option String → Bool
  | none => false
  | some s => s ≠ ""

/-- The `parsed_sections` mapping handed to `compute_heuristics`. -/
structure Sections where
  education : Option String
  experience : Option String
  skills : Option String
  projects : Option String
deriving DecidableEq

/-- Breakdown dictionary built by `compute_heuristics`. -/
structure HBreakdown where
  education : ℚ
  experience : ℚ
  skills : ℚ
  projects : ℚ
  contact : ℚ
  parsingPenalty : ℚ
deriving DecidableEq

/-- Breakdown dictionary built by `normalize_score`. -/
structure NBreakdown where
  heuristics : ℚ
  relevance : ℚ
  scalingFactor : ℚ
deriving DecidableEq

/-! ## Section scorers (scorer.py lines 284-528) -/

/-- `_score_education` (lines 284-325). -/
def _score_education (education_text full_text : String) : ℚ :=
  if education_text = "" ∧ ¬ containsSub full_text "education" then 0
  else
    let text := lowerStr (education_text ++ " " ++ full_text)
    let degree : ℚ :=
      if ["ph.d", "phd", "doctorate", "doctoral"].any (fun d => containsSub text d) then 5
      else if ["master", "m.s.", "m.sc", "mba", "m.tech", "mtech"].any
          (fun d => containsSub text d) then 4
      else if ["bachelor", "b.s.", "b.sc", "b.tech", "btech", "b.e.", "undergraduate"].any
          (fun d => containsSub text d) then 3
      else if ["diploma", "associate", "certificate"].any (fun d => containsSub text d) then 3 / 2
      else 0
    let field : ℚ :=
      if ["computer science", "software", "engineering", "information technology",
          "data science", "artificial intelligence", "machine learning", "mathematics",
          "electrical", "electronics", "cs", "cse", "it", "ece"].any
          (fun f => containsSub text f) then 3 / 2
      else 0
    let school : ℚ :=
      if ["mit", "stanford", "iit", "nit", "iiit", "bits", "harvard", "berkeley",
          "carnegie mellon", "georgia tech", "caltech", "oxford", "cambridge"].any
          (fun s => containsSub text s) then 1
      else 0
    min 10 (2 + degree + field + school)

/-- The fixed action-verb list of `_score_experience`. -/
def actionVerbs : List String :=
  ["led", "developed", "implemented", "designed", "architected", "built",
   "managed", "created", "optimized", "improved", "reduced", "increased",
   "delivered", "launched", "mentored", "scaled", "automated", "integrated",
   "deployed", "spearheaded", "established", "transformed", "pioneered"]

/-- The fixed seniority-keyword list of `_score_experience`. -/
def seniorityTerms : List String :=
  ["senior", "lead", "principal", "staff", "architect", "manager", "director",
   "head", "vp", "cto", "ceo"]

/-- The fixed employer list of `_score_experience`. -/
def topCompanies : List String :=
  ["google", "amazon", "microsoft", "meta", "facebook", "apple", "netflix",
   "uber", "airbnb", "stripe", "linkedin", "twitter", "salesforce", "adobe"]

/-- `_score_experience` (lines 328-417).  `total_months` is the summed result
of the duration regexes and `metricsCount` the number of
quantified-achievement regex matches, both computed by `re.findall` in the
source and supplied here as inputs. -/
def _score_experience (experience_text full_text : String)
    (total_months : ℚ) (metricsCount : ℕ) : ℚ :=
  if experience_text = "" ∧ ¬ containsSub full_text "experience" then 0
  else
    let text := lowerStr (experience_text ++ " " ++ full_text)
    let durScore : ℚ :=
      if 6 ≤ total_months then 4
      else if 3 ≤ total_months then 3
      else if 1 ≤ total_months then 2
      else
        let distinct_years := ((findYears text.toList).dedup).length
        if 2 ≤ distinct_years then 4
        else if distinct_years = 1 ∧ (containsSub text "present" || containsSub text "current")
          then 4
        else if distinct_years = 1 then 5 / 2
        else if 200 < text.length then 1
        else 0
    let action_count := (actionVerbs.filter (fun v => containsSub text v)).length
    let seniority_count := (seniorityTerms.filter (fun s => containsSub text s)).length
    let score := durScore
      + min (5 / 2) ((action_count : ℚ) * (35 / 100))
      + min 2 ((metricsCount : ℚ) * (2 / 5))
      + min 1 ((seniority_count : ℚ) * (1 / 2))
      + (if topCompanies.any (fun co => containsSub text co) then 1 / 2 else 0)
    min 10 (round1 score)

/-- `_score_skills` (lines 420-441).  Branch guards are exactly the source's
(`== 0`, `<= 5`, `<= 15`, `< 25`); inside a guard the Python integer
subtraction is the rational one. -/
def _score_skills (skill_count : ℕ) : ℚ :=
  if skill_count = 0 then 0
  else if skill_count ≤ 5 then round1 (2 + (skill_count : ℚ) * (2 / 10))
  else if skill_count ≤ 15 then round1 (3 + ((skill_count : ℚ) - 5) * (4 / 10))
  else if skill_count < 25 then round1 (7 + ((skill_count : ℚ) - 15) * (3 / 10))
  else 10

/-- The project-indicator phrases of `_score_projects`. -/
def projectIndicators : List String :=
  ["github.com", "project:", "built a", "created a", "developed a", "hackathon"]

/-- The technology-keyword list of `_score_projects`. -/
def techIndicators : List String :=
  ["react", "node", "python", "javascript", "typescript", "java", "golang", "rust",
   "aws", "docker", "kubernetes", "mongodb", "postgresql", "api", "machine learning",
   "tensorflow", "pytorch", "database", "microservices"]

/-- The hosting-link keyword list of `_score_projects`. -/
def linkIndicators : List String :=
  ["github.com", "gitlab.com", "bitbucket", "herokuapp", "vercel", "netlify",
   "http://", "https://"]

/-- `_score_projects` (lines 444-491).  `impactCount` is the number of
matches of the impact regex, computed by `re.findall` in the source and
supplied here as an input. -/
def _score_projects (projects_text full_text : String) (impactCount : ℕ) : ℚ :=
  if projects_text = "" ∧ ¬ projectIndicators.any (fun ind => containsSub full_text ind) then 0
  else
    let text := if projects_text = "" then full_text else projects_text ++ " " ++ full_text
    let text_lower := lowerStr text
    let tech_count := (techIndicators.filter (fun t => containsSub text_lower t)).length
    let link_count := (linkIndicators.filter (fun l => containsSub text_lower l)).length
    let project_words := countOccs "project".toList text_lower.toList
    let score := 2
      + min 3 ((tech_count : ℚ) * (1 / 2))
      + min 2 ((impactCount : ℚ) * (1 / 2))
      + min 2 ((link_count : ℚ) * (7 / 10))
      + (if 3 ≤ project_words then 1 else if 2 ≤ project_words then 1 / 2 else 0)
    min 10 score

/-- The portfolio-indicator substrings of `_score_contact`. -/
def portfolioIndicators : List String :=
  ["portfolio", "website", ".com/", ".io/", "vercel.app", "netlify.app"]

/-- `_score_contact` (lines 494-528). -/
def _score_contact (contact : ContactInfo) (full_text : String) : ℚ :=
  min 10 ((if truthyOpt contact.email then 3 else 0)
    + (if truthyOpt contact.phone then 2 else 0)
    + (if containsSub full_text "linkedin.com" || containsSub full_text "linkedin" then 2 else 0)
    + (if containsSub full_text "github.com" || containsSub full_text "github" then 2 else 0)
    + (if portfolioIndicators.any (fun ind => containsSub full_text ind) then 1 else 0))

/-! ## Heuristic aggregator (scorer.py lines 157-281) -/

/-- The sum of the five (unrounded) sub-scores accumulated by
`compute_heuristics` before the parsing penalty and the final clamp. -/
def heurSubtotal (text : String) (parsed : Sections) (all_skills : List String)
    (contact : ContactInfo) (expMonths : ℚ) (expMetrics projImpact : ℕ) : ℚ :=
  let text_lower := lowerStr text
  _score_education (parsed.education.getD "") text_lower
    + _score_experience (parsed.experience.getD "") text_lower expMonths expMetrics
    + _score_skills all_skills.length
    + _score_projects (parsed.projects.getD "") text_lower projImpact
    + _score_contact contact text_lower

/-- `compute_heuristics` (lines 157-281).  `all_skills` and `contact` are the
collaborator results (`extract_skills_from_resume`, `extract_contact_info`)
and `expMonths`, `expMetrics`, `projImpact` the `re.findall`-derived inputs of
the experience/projects scorers.  Python's `parsed_sections.get(k, '') or ''`
maps both a missing key and `None` to `''` (`Option.getD ""`).  Returns
`(score, feedback, breakdown)`. -/
def compute_heuristics (text : String) (parsed : Sections) (parsing_errors : List String)
    (all_skills : List String) (contact : ContactInfo)
    (expMonths : ℚ) (expMetrics projImpact : ℕ) : ℚ × List String × HBreakdown :=
  let text_lower := lowerStr text
  let edu_score := _score_education (parsed.education.getD "") text_lower
  let eduFb : List String :=
    if edu_score < 5 then
      if edu_score = 0 then ["Missing or undetected Education section"]
      else ["Education section lacks detail - include degree, field, and institution"]
    else []
  let exp_score := _score_experience (parsed.experience.getD "") text_lower expMonths expMetrics
  let expFb : List String :=
    if exp_score < 5 then
      if exp_score = 0 then ["Missing or undetected Experience section"]
      else ["Experience lacks impact - add action verbs (led, developed, increased) and quantified results (40%, $1M, 10K users)"]
    else []
  let skill_count := all_skills.length
  let skills_score := _score_skills skill_count
  let skillsFb : List String :=
    if skills_score < 5 then
      ["Only " ++ toString skill_count ++ " technical skills detected - add more relevant technologies (target: 20+)"]
    else []
  let proj_score := _score_projects (parsed.projects.getD "") text_lower projImpact
  let projFb : List String :=
    if proj_score < 5 then
      if proj_score = 0 then ["Missing Projects section - showcase your work with technical details"]
      else ["Projects need more detail - include tech stack, your role, and impact"]
    else []
  let contact_score := _score_contact contact text_lower
  let contactFb : List String :=
    if contact_score < 5 then
      ["Contact info incomplete - add email, phone, and LinkedIn/GitHub"]
    else []
  let breakdown0 : HBreakdown :=
    ⟨round1 edu_score, round1 exp_score, round1 skills_score,
     round1 proj_score, round1 contact_score, 0⟩
  let baseFeedback := eduFb ++ expFb ++ skillsFb ++ projFb ++ contactFb
  let subtotal := heurSubtotal text parsed all_skills contact expMonths expMetrics projImpact
  if parsing_errors.isEmpty then
    (max 0 (min 50 subtotal), baseFeedback, breakdown0)
  else
    let penalty : ℚ := min 10 (5 * (parsing_errors.length : ℚ))
    (max 0 (min 50 (subtotal - penalty)),
     baseFeedback ++ ["Parsing issues detected: " ++ String.intercalate "; " (parsing_errors.take 3)],
     { breakdown0 with parsingPenalty := -penalty })

/-! ## Score normalizer (scorer.py lines 578-654) -/

/-- `SCALE_WITH_JD = 0.98` (line 620). -/
def SCALE_WITH_JD : ℚ := 98 / 100

/-- `SCALE_WITHOUT_JD = 0.98` (line 621). -/
def SCALE_WITHOUT_JD : ℚ := 98 / 100

/-- The `relevance is None or relevance == 0.0` branch of `normalize_score`
(lines 623-632). -/
def noJdBranch (heuristics_score : ℚ) : ℚ × NBreakdown :=
  let raw_total := heuristics_score * 2
  let total := raw_total * SCALE_WITHOUT_JD
  (round2 (max 0 (min 100 total)),
   ⟨round2 (heuristics_score * 2), 0, SCALE_WITHOUT_JD⟩)

/-- The three-segment relevance curve of `normalize_score` (lines 636-641). -/
def jdComponent (r : ℚ) : ℚ :=
  if r < 3 / 10 then r * 35
  else if r < 3 / 5 then 21 / 2 + (r - 3 / 10) * 45
  else 24 + (r - 3 / 5) * 65

/-- The with-job-description branch of `normalize_score` (lines 633-649). -/
def withJdBranch (heuristics_score r : ℚ) : ℚ × NBreakdown :=
  let relevance_component := jdComponent r
  let total := (heuristics_score + relevance_component) * SCALE_WITH_JD
  (round2 (max 0 (min 100 total)),
   ⟨round2 heuristics_score, round2 relevance_component, SCALE_WITH_JD⟩)

/-- `normalize_score` (lines 578-654), returning the final score (clamped to
`[0, 100]`, rounded to 2 decimals) and its breakdown. -/
def normalize_score (heuristics_score : ℚ) (relevance : Option ℚ) : ℚ × NBreakdown :=
  match relevance with
  | none => noJdBranch heuristics_score
  | some r => if r = 0 then noJdBranch heuristics_score else withJdBranch heuristics_score r

/-! ## Relevance estimator (scorer.py lines 56-154)

`compute_relevance_tfidf` delegates vectorization to scikit-learn's
`TfidfVectorizer`; the library is modelled by its output: a pair of rows of
the TF-IDF matrix, whose entries (term frequency × inverse document
frequency) are non-negative, or `none` when `fit_transform` raises (for
example on an empty vocabulary) — the `except` path of the source.  The
SBERT model handle is likewise modelled by the similarity value its
embeddings would produce (any real), or an error for the `except` fallback
path. -/

/-- Sum of pairwise products of two rational vectors. -/
def dotQ : List ℚ → List ℚ → ℚ
  | [], _ => 0
  | _, [] => 0
  | x :: xs, y :: ys => x * y + dotQ xs ys

/-- Squared Euclidean norm. -/
def normSqQ (v : List ℚ) : ℚ := dotQ v v

/-- A row of scikit-learn's TF-IDF matrix: a vector with non-negative
entries (term counts times non-negative idf weights). -/
structure TfidfVec where
  entries : List ℚ
  nonneg : ∀ q ∈ entries, 0 ≤ q

/-- `sklearn.metrics.pairwise.cosine_similarity` of two vectors:
`⟨a, b⟩ / (‖a‖ ‖b‖)`.  A zero denominator yields `0` (real division by
zero), which coincides with the source's mapping of `NaN` to `0.0`. -/
noncomputable def cosineSim (a b : List ℚ) : ℝ :=
  ((dotQ a b : ℚ) : ℝ) / (Real.sqrt ((normSqQ a : ℚ) : ℝ) * Real.sqrt ((normSqQ b : ℚ) : ℝ))

/-- `compute_relevance_tfidf` (lines 56-102): `none` models the `except`
path (return `0.0`); otherwise the cosine similarity of the two TF-IDF rows
(order `[job_description, resume]`), with `NaN` mapped to `0.0`. -/
noncomputable def compute_relevance_tfidf (fit : Option (TfidfVec × TfidfVec)) : ℝ :=
  match fit with
  | none => 0
  | some (jd, resume) => cosineSim jd.entries resume.entries

/-- `ats_similarity_score_sbert` (lines 105-154).  `sbert_model` is the
truthiness of the model handle, `encodeSim` the similarity computed from the
SBERT embeddings (`Except.error` models a raised exception, handled by
falling back to TF-IDF), and `fit` the TF-IDF fallback's vectorization. -/
noncomputable def ats_similarity_score_sbert (resume_text jd_text : String)
    (sbert_model sbert_enabled : Bool) (stop_words : Option (List String))
    (encodeSim : Except Unit ℝ) (fit : Option (TfidfVec × TfidfVec)) : ℝ :=
  if !sbert_enabled || !sbert_model then compute_relevance_tfidf fit
  else
    let resume_clean := clean_text resume_text stop_words
    let jd_clean := clean_text jd_text stop_words
    if resume_clean = "" || jd_clean = "" then 0
    else
      match encodeSim with
      | Except.ok s => max 0 (min 1 s)
      | Except.error _ => compute_relevance_tfidf fit

/-! ## Spec-side definitions (used for refinement-style claims) -/

/-- Modelled from the spec: the skills mapping of spec §4.3 / §8, written
exactly as the claim states it (`n=0 → 0.0`; `1≤n≤5 → 2.0+0.2×n`;
`6≤n≤15 → 3.0+0.4×(n−5)`; `16≤n≤24 → 7.0+0.3×(n−15)`, each rounded to one
decimal; `n≥25 → 10.0`). -/
def specSkillsScore (n : ℕ) : ℚ :=
  if n = 0 then 0
  else if 1 ≤ n ∧ n ≤ 5 then round1 (2 + (2 / 10) * (n : ℚ))
  else if 6 ≤ n ∧ n ≤ 15 then round1 (3 + (4 / 10) * ((n : ℚ) - 5))
  else if 16 ≤ n ∧ n ≤ 24 then round1 (7 + (3 / 10) * ((n : ℚ) - 15))
  else 10

/-- Modelled from the spec: the three-segment relevance curve of spec §4.8,
written exactly as the claim states it. -/
def specRelevanceComponent (r : ℚ) : ℚ :=
  if r < 3 / 10 then r * 35
  else if r < 3 / 5 then 105 / 10 + (r - 3 / 10) * 45
  else 24 + (r - 3 / 5) * 65

/-! ## Helper lemmas -/

theorem round1_mono {x y : ℚ} (h : x ≤ y) : round1 x ≤ round1 y := by
  unfold round1
  have hf : (⌊x * 10 + 1 / 2⌋ : ℤ) ≤ ⌊y * 10 + 1 / 2⌋ := Int.floor_mono (by linarith)
  have hq : ((⌊x * 10 + 1 / 2⌋ : ℤ) : ℚ) ≤ ((⌊y * 10 + 1 / 2⌋ : ℤ) : ℚ) := by exact_mod_cast hf
  linarith

theorem round2_mono {x y : ℚ} (h : x ≤ y) : round2 x ≤ round2 y := by
  unfold round2
  have hf : (⌊x * 100 + 1 / 2⌋ : ℤ) ≤ ⌊y * 100 + 1 / 2⌋ := Int.floor_mono (by linarith)
  have hq : ((⌊x * 100 + 1 / 2⌋ : ℤ) : ℚ) ≤ ((⌊y * 100 + 1 / 2⌋ : ℤ) : ℚ) := by exact_mod_cast hf
  linarith

theorem round1_nonneg {x : ℚ} (h : 0 ≤ x) : 0 ≤ round1 x := by
  have h0 : round1 0 = 0 := by norm_num [round1]
  calc (0 : ℚ) = round1 0 := h0.symm
    _ ≤ round1 x := round1_mono h

theorem round1_le_of_le {x : ℚ} {b : ℤ} (h : x ≤ b) : round1 x ≤ b := by
  unfold round1
  have hf : (⌊x * 10 + 1 / 2⌋ : ℤ) ≤ ⌊(b : ℚ) * 10 + 1 / 2⌋ := Int.floor_mono (by linarith)
  have hb : (⌊(b : ℚ) * 10 + 1 / 2⌋ : ℤ) = b * 10 := by
    rw [show ((b : ℚ) * 10 + 1 / 2) = ((b * 10 : ℤ) : ℚ) + 1 / 2 by push_cast; ring,
      Int.floor_int_add]
    norm_num
  rw [div_le_iff₀ (by norm_num : (0 : ℚ) < 10)]
  have hle : (⌊x * 10 + 1 / 2⌋ : ℤ) ≤ b * 10 := by omega
  calc ((⌊x * 10 + 1 / 2⌋ : ℤ) : ℚ) ≤ ((b * 10 : ℤ) : ℚ) := by exact_mod_cast hle
    _ = (b : ℚ) * 10 := by push_cast; ring

/-- `0 ≤ if c then a else b` from bounds on both branches. -/
theorem ite_nn {c : Prop} [Decidable c] {a b : ℚ} (ha : 0 ≤ a) (hb : 0 ≤ b) :
    0 ≤ if c then a else b := by
  split <;> assumption

theorem jdComponent_mono {r1 r2 : ℚ} (h : r1 ≤ r2) : jdComponent r1 ≤ jdComponent r2 := by
  unfold jdComponent
  split_ifs <;> linarith

theorem jdComponent_eq_spec (r : ℚ) : jdComponent r = specRelevanceComponent r := by
  unfold jdComponent specRelevanceComponent
  split_ifs <;> norm_num

/-! ## Claims about the score normalizer -/

/-- Claim C6 (confirmed): the skills score is exactly the piecewise-linear
mapping of the claim (`n=0 → 0`; `1–5 → 2.0+0.2n`; `6–15 → 3.0+0.4(n−5)`;
`16–24 → 7.0+0.3(n−15)`, each rounded to 1 decimal; `n≥25 → 10`), and in
particular 25 and 100 skills both score 10.0. -/
theorem skills_score_piecewise :
    (∀ n : ℕ, _score_skills n = specSkillsScore n) ∧
    _score_skills 25 = 10 ∧ _score_skills 100 = 10 := by
  refine ⟨?_, by norm_num [_score_skills], by norm_num [_score_skills]⟩
  intro n
  unfold _score_skills specSkillsScore
  split_ifs <;> try (exfalso; omega)
  all_goals try rfl
  all_goals (congr 1; ring)

/-- Claim C7 (confirmed): `normalize_score` with relevance `0.0` returns
exactly the same score and breakdown as with relevance `None`; both take the
no-job-description branch `final = round2(clamp(h × 2.0 × 0.98))` with
breakdown `⟨round2(h × 2.0), 0.0, 0.98⟩`. -/
theorem normalize_zero_relevance_round_trip :
    ∀ h : ℚ, normalize_score h (some 0) = normalize_score h none ∧
      (normalize_score h none).1 = round2 (max 0 (min 100 (h * 2 * (98 / 100)))) ∧
      (normalize_score h none).2 = ⟨round2 (h * 2), 0, 98 / 100⟩ := by
  intro h
  refine ⟨?_, rfl, rfl⟩
  simp [normalize_score]

/-- Claim C5 (confirmed): in with-JD mode (`relevance = some r`, `r > 0`) the
final score is `(h + component) × 0.98` clamped to `[0,100]` and rounded to
2 decimals, with `component` the three-segment curve of the spec; in
particular `h = 50`, `r = 0.8` gives component `37` and final score `85.26`. -/
theorem normalize_with_jd_formula :
    (∀ h r : ℚ, 0 < r →
      (normalize_score h (some r)).1 =
        round2 (max 0 (min 100 ((h + specRelevanceComponent r) * (98 / 100))))) ∧
    specRelevanceComponent (4 / 5) = 37 ∧
    (normalize_score 50 (some (4 / 5))).1 = 8526 / 100 := by
  refine ⟨?_, by norm_num [specRelevanceComponent], ?_⟩
  · intro h r hr
    simp [normalize_score, hr.ne', withJdBranch, jdComponent_eq_spec, SCALE_WITH_JD]
  · norm_num [normalize_score, withJdBranch, jdComponent, SCALE_WITH_JD, round2,
      min_def, max_def]

/-- Witness for C5's theorem at `h = 20`, `r = 1/2`. -/
theorem normalize_with_jd_formula_witness :
    (0 : ℚ) < 1 / 2 ∧
    (normalize_score 20 (some (1 / 2))).1 =
      round2 (max 0 (min 100 ((20 + specRelevanceComponent (1 / 2)) * (98 / 100)))) :=
  ⟨by norm_num, normalize_with_jd_formula.1 20 (1 / 2) (by norm_num)⟩

/-- Claim C2 (counterexample): the final score is not monotone over all of
`[0,50] × [0,1]`: at `h1 = h2 = 50`, `r1 = 0 ≤ r2 = 0.01` the score drops
from 98.0 (no-JD branch) to 49.34 (with-JD branch). -/
theorem normalize_score_monotone_cex :
    (0 : ℚ) ≤ 50 ∧ (50 : ℚ) ≤ 50 ∧ (0 : ℚ) ≤ (0 : ℚ) ∧ (0 : ℚ) ≤ 1 / 100 ∧
    (1 : ℚ) / 100 ≤ 1 ∧
    ¬ ((normalize_score 50 (some 0)).1 ≤ (normalize_score 50 (some (1 / 100))).1) := by
  refine ⟨by norm_num, le_rfl, le_rfl, by norm_num, by norm_num, ?_⟩
  have e0 : (normalize_score 50 (some (0 : ℚ))).1 = 98 := by
    norm_num [normalize_score, noJdBranch, SCALE_WITHOUT_JD, round2, min_def, max_def]
  have e1 : (normalize_score 50 (some (1 / 100 : ℚ))).1 = 4934 / 100 := by
    norm_num [normalize_score, withJdBranch, jdComponent, SCALE_WITH_JD, round2,
      min_def, max_def]
  rw [e0, e1]
  norm_num

/-- Claim C2 (amended): the final score is monotone in both arguments as long
as both relevance values stay in the with-JD mode (`0 < r1 ≤ r2 ≤ 1`); the
original claim fails only because relevance `0` selects the no-JD branch. -/
theorem normalize_score_monotone (h1 h2 r1 r2 : ℚ) (hh0 : 0 ≤ h1) (hh : h1 ≤ h2)
    (hh50 : h2 ≤ 50) (hr0 : 0 < r1) (hr : r1 ≤ r2) (hr1 : r2 ≤ 1) :
    (normalize_score h1 (some r1)).1 ≤ (normalize_score h2 (some r2)).1 := by
  have e1 : normalize_score h1 (some r1) = withJdBranch h1 r1 := by
    simp [normalize_score, hr0.ne']
  have e2 : normalize_score h2 (some r2) = withJdBranch h2 r2 := by
    simp [normalize_score, (lt_of_lt_of_le hr0 hr).ne']
  rw [e1, e2]
  unfold withJdBranch
  simp only
  apply round2_mono
  have hc := jdComponent_mono hr
  have hmul : (h1 + jdComponent r1) * SCALE_WITH_JD ≤ (h2 + jdComponent r2) * SCALE_WITH_JD := by
    apply mul_le_mul_of_nonneg_right (by linarith)
    norm_num [SCALE_WITH_JD]
  exact max_le_max le_rfl (min_le_min le_rfl hmul)

/-- Witness for C2's amended theorem at `h1 = 40 ≤ h2 = 50`,
`r1 = 1/2 ≤ r2 = 4/5`. -/
theorem normalize_score_monotone_witness :
    (0 : ℚ) ≤ 40 ∧ (40 : ℚ) ≤ 50 ∧ (50 : ℚ) ≤ 50 ∧ (0 : ℚ) < 1 / 2 ∧
    (1 : ℚ) / 2 ≤ 4 / 5 ∧ (4 : ℚ) / 5 ≤ 1 ∧
    (normalize_score 40 (some (1 / 2))).1 ≤ (normalize_score 50 (some (4 / 5))).1 :=
  ⟨by norm_num, by norm_num, le_rfl, by norm_num, by norm_num, by norm_num,
   normalize_score_monotone 40 50 (1 / 2) (4 / 5) (by norm_num) (by norm_num)
     (by norm_num) (by norm_num) (by norm_num) (by norm_num)⟩

/-! ## Claims about the heuristic aggregator and section scorers -/

/-- Claim C1 (counterexample): for the resume text
`"PhD Computer Science from MIT"` with no parsed education section, the
education sub-score is not 10.0 — the missing-section guard of
`_score_education` fires because neither a parsed section nor the literal
substring `"education"` occurs in the text. -/
theorem education_scenario2_cex :
    (compute_heuristics "PhD Computer Science from MIT" ⟨none, none, none, none⟩ []
      [] ⟨none, none⟩ 0 0 0).2.2.education ≠ 10 := by
  norm_num +decide [compute_heuristics, _score_education, round1]

/-- Claim C1 (amended): for that scoring request the education sub-score is
0.0 (the guard `not education_text and 'education' not in full_text` fires);
and even if the whole text were parsed as the education section the score
would be 9.5 = 2+5+1.5+1.0, not 10.0. -/
theorem education_scenario2_amended :
    (compute_heuristics "PhD Computer Science from MIT" ⟨none, none, none, none⟩ []
      [] ⟨none, none⟩ 0 0 0).2.2.education = 0 ∧
    _score_education "PhD Computer Science from MIT" "phd computer science from mit" = 19 / 2 := by
  constructor
  · norm_num +decide [compute_heuristics, _score_education, round1]
  · norm_num +decide [_score_education, min_def]

/-- Claim C4 (confirmed): the heuristic score returned by
`compute_heuristics` always lies in `[0, 50]`, for every resume text,
section mapping, parsing-error list (of any length), skill list, contact
mapping and regex-derived input. -/
theorem heuristics_total_bounded :
    ∀ (text : String) (parsed : Sections) (errs skills : List String)
      (contact : ContactInfo) (months : ℚ) (metrics impact : ℕ),
      0 ≤ (compute_heuristics text parsed errs skills contact months metrics impact).1 ∧
      (compute_heuristics text parsed errs skills contact months metrics impact).1 ≤ 50 := by
  intro text parsed errs skills contact months metrics impact
  simp only [compute_heuristics]
  split <;>
    exact ⟨le_max_left 0 _, max_le (by norm_num) (min_le_left _ _)⟩

theorem _score_education_bounds (e f : String) :
    0 ≤ _score_education e f ∧ _score_education e f ≤ 10 := by
  simp only [_score_education]
  split
  · exact ⟨le_rfl, by norm_num⟩
  · refine ⟨le_min (by norm_num) ?_, min_le_left _ _⟩
    split_ifs <;> norm_num

theorem _score_experience_bounds (e f : String) (m : ℚ) (k : ℕ) :
    0 ≤ _score_experience e f m k ∧ _score_experience e f m k ≤ 10 := by
  simp only [_score_experience]
  split
  · exact ⟨le_rfl, by norm_num⟩
  · refine ⟨le_min (by norm_num) (round1_nonneg ?_), min_le_left _ _⟩
    refine add_nonneg (add_nonneg (add_nonneg (add_nonneg ?_ ?_) ?_) ?_) ?_
    · split_ifs <;> norm_num
    · exact le_min (by norm_num) (by positivity)
    · exact le_min (by norm_num) (by positivity)
    · exact le_min (by norm_num) (by positivity)
    · split_ifs <;> norm_num

theorem _score_skills_bounds (n : ℕ) : 0 ≤ _score_skills n ∧ _score_skills n ≤ 10 := by
  simp only [_score_skills]
  split_ifs with h0 h5 h15 h25
  · exact ⟨le_rfl, by norm_num⟩
  · have hn : ((n : ℚ)) ≤ 5 := by exact_mod_cast h5
    exact ⟨round1_nonneg (by positivity), round1_le_of_le (b := 10) (by linarith)⟩
  · have h6 : (6 : ℚ) ≤ (n : ℚ) := by exact_mod_cast (by omega : 6 ≤ n)
    have hn : ((n : ℚ)) ≤ 15 := by exact_mod_cast h15
    exact ⟨round1_nonneg (by linarith), round1_le_of_le (b := 10) (by linarith)⟩
  · have h16 : (16 : ℚ) ≤ (n : ℚ) := by exact_mod_cast (by omega : 16 ≤ n)
    have hn : ((n : ℚ)) ≤ 24 := by exact_mod_cast (by omega : n ≤ 24)
    exact ⟨round1_nonneg (by linarith), round1_le_of_le (b := 10) (by linarith)⟩
  · exact ⟨by norm_num, le_rfl⟩

theorem _score_projects_bounds (p f : String) (i : ℕ) :
    0 ≤ _score_projects p f i ∧ _score_projects p f i ≤ 10 := by
  simp only [_score_projects]
  split
  · exact ⟨le_rfl, by norm_num⟩
  · refine ⟨le_min (by norm_num) ?_, min_le_left _ _⟩
    refine add_nonneg (add_nonneg (add_nonneg (add_nonneg (by norm_num) ?_) ?_) ?_) ?_
    · exact le_min (by norm_num) (by positivity)
    · exact le_min (by norm_num) (by positivity)
    · exact le_min (by norm_num) (by positivity)
    · split_ifs <;> norm_num

theorem _score_contact_bounds (c : ContactInfo) (f : String) :
    0 ≤ _score_contact c f ∧ _score_contact c f ≤ 10 := by
  simp only [_score_contact]
  refine ⟨le_min (by norm_num) ?_, min_le_left _ _⟩
  refine add_nonneg (add_nonneg (add_nonneg (add_nonneg ?_ ?_) ?_) ?_) ?_ <;>
    (split_ifs <;> norm_num)

/-- Claim C8 (confirmed): each of the five section scorers returns a value
in `[0, 10]`, for every section text, full text, skill count, contact
mapping and regex-derived input. -/
theorem section_scorers_bounded :
    (∀ e f : String, 0 ≤ _score_education e f ∧ _score_education e f ≤ 10) ∧
    (∀ (e f : String) (m : ℚ) (k : ℕ),
      0 ≤ _score_experience e f m k ∧ _score_experience e f m k ≤ 10) ∧
    (∀ n : ℕ, 0 ≤ _score_skills n ∧ _score_skills n ≤ 10) ∧
    (∀ (p f : String) (i : ℕ), 0 ≤ _score_projects p f i ∧ _score_projects p f i ≤ 10) ∧
    (∀ (c : ContactInfo) (f : String), 0 ≤ _score_contact c f ∧ _score_contact c f ≤ 10) :=
  ⟨_score_education_bounds, _score_experience_bounds, _score_skills_bounds,
   _score_projects_bounds, _score_contact_bounds⟩

/-- Claim C9 (confirmed): for a non-empty parsing-error list the aggregator
subtracts the penalty `min(10, 5×n)` exactly once from the sub-score sum
before the clamp, stores it negated in the breakdown's `parsingPenalty`, and
appends (to the feedback of the error-free run) exactly one message joining
at most the first 3 error strings; for `n = 3` the penalty is 10. -/
theorem parsing_penalty_rule :
    ∀ (text : String) (parsed : Sections) (errs skills : List String)
      (contact : ContactInfo) (months : ℚ) (metrics impact : ℕ), errs ≠ [] →
      compute_heuristics text parsed errs skills contact months metrics impact =
        (max 0 (min 50 (heurSubtotal text parsed skills contact months metrics impact
            - min 10 (5 * (errs.length : ℚ)))),
         (compute_heuristics text parsed [] skills contact months metrics impact).2.1
           ++ ["Parsing issues detected: " ++ String.intercalate "; " (errs.take 3)],
         { (compute_heuristics text parsed [] skills contact months metrics impact).2.2 with
             parsingPenalty := -(min 10 (5 * (errs.length : ℚ))) }) ∧
      (errs.length = 3 → min 10 (5 * ((errs.length : ℕ) : ℚ)) = 10) := by
  intro text parsed errs skills contact months metrics impact herrs
  have hne : errs.isEmpty = false := by
    cases errs with
    | nil => exact absurd rfl herrs
    | cons a l => rfl
  constructor
  · simp [compute_heuristics, hne]
  · intro h3
    rw [h3]
    norm_num [min_def]

/-- Witness for C9's theorem: empty resume, three parsing errors. -/
theorem parsing_penalty_rule_witness :
    compute_heuristics "" ⟨none, none, none, none⟩ ["a", "b", "c"] [] ⟨none, none⟩ 0 0 0 =
      (max 0 (min 50 (heurSubtotal "" ⟨none, none, none, none⟩ [] ⟨none, none⟩ 0 0 0
          - min 10 (5 * ((["a", "b", "c"].length : ℕ) : ℚ)))),
       (compute_heuristics "" ⟨none, none, none, none⟩ [] [] ⟨none, none⟩ 0 0 0).2.1
         ++ ["Parsing issues detected: " ++ String.intercalate "; " (["a", "b", "c"].take 3)],
       { (compute_heuristics "" ⟨none, none, none, none⟩ [] [] ⟨none, none⟩ 0 0 0).2.2 with
           parsingPenalty := -(min 10 (5 * ((["a", "b", "c"].length : ℕ) : ℚ))) }) ∧
    (["a", "b", "c"].length = 3 → min 10 (5 * ((["a", "b", "c"].length : ℕ) : ℚ)) = 10) :=
  parsing_penalty_rule "" ⟨none, none, none, none⟩ ["a", "b", "c"] [] ⟨none, none⟩ 0 0 0
    (by decide)

/-! ## Claims about the relevance estimator -/

theorem normSqQ_nonneg : ∀ v : List ℚ, 0 ≤ normSqQ v := by
  intro v
  induction v with
  | nil => simp [normSqQ, dotQ]
  | cons x xs ih =>
    simp only [normSqQ, dotQ] at *
    nlinarith [sq_nonneg x]

theorem dotQ_nonneg : ∀ a b : List ℚ, (∀ x ∈ a, 0 ≤ x) → (∀ y ∈ b, 0 ≤ y) → 0 ≤ dotQ a b := by
  intro a
  induction a with
  | nil => intro b _ _; simp [dotQ]
  | cons x xs ih =>
    intro b hxa hyb
    cases b with
    | nil => simp [dotQ]
    | cons y ys =>
      simp only [dotQ]
      have hrec := ih ys (fun z hz => hxa z (List.mem_cons_of_mem _ hz))
        (fun z hz => hyb z (List.mem_cons_of_mem _ hz))
      have hx := hxa x (List.mem_cons_self _ _)
      have hy := hyb y (List.mem_cons_self _ _)
      exact add_nonneg (mul_nonneg hx hy) hrec

theorem dotQ_sq_le : ∀ a b : List ℚ, (dotQ a b) ^ 2 ≤ normSqQ a * normSqQ b := by
  intro a
  induction a with
  | nil => intro b; simp [dotQ, normSqQ]
  | cons x xs ih =>
    intro b
    cases b with
    | nil =>
      simp only [dotQ, normSqQ]
      nlinarith [normSqQ_nonneg (x :: xs)]
    | cons y ys =>
      have h := ih ys
      have hxs := normSqQ_nonneg xs
      have hys := normSqQ_nonneg ys
      simp only [normSqQ, dotQ] at *
      rcases eq_or_lt_of_le hxs with hna | hna
      · have hd0 : dotQ xs ys = 0 := by nlinarith [sq_nonneg (dotQ xs ys)]
        rw [hd0, ← hna]
        nlinarith [sq_nonneg x, sq_nonneg y, mul_nonneg (sq_nonneg x) hys]
      · nlinarith [sq_nonneg (x * dotQ xs ys - y * dotQ xs xs),
          mul_nonneg (sq_nonneg x) (sub_nonneg.mpr h),
          mul_nonneg (le_of_lt hna) (sub_nonneg.mpr h)]

theorem cosineSim_nonneg_le_one (a b : List ℚ) (ha : ∀ x ∈ a, 0 ≤ x)
    (hb : ∀ y ∈ b, 0 ≤ y) : 0 ≤ cosineSim a b ∧ cosineSim a b ≤ 1 := by
  have hd : 0 ≤ dotQ a b := dotQ_nonneg a b ha hb
  have hsq : (dotQ a b) ^ 2 ≤ normSqQ a * normSqQ b := dotQ_sq_le a b
  have hna : 0 ≤ normSqQ a := normSqQ_nonneg a
  have hnb : 0 ≤ normSqQ b := normSqQ_nonneg b
  unfold cosineSim
  have hDnn : (0 : ℝ) ≤ Real.sqrt ((normSqQ a : ℚ) : ℝ) * Real.sqrt ((normSqQ b : ℚ) : ℝ) :=
    mul_nonneg (Real.sqrt_nonneg _) (Real.sqrt_nonneg _)
  constructor
  · exact div_nonneg (by exact_mod_cast hd) hDnn
  · rcases eq_or_lt_of_le hDnn with h0 | h0
    · rw [← h0, div_zero]
      norm_num
    · rw [div_le_one h0, ← Real.sqrt_mul (by exact_mod_cast hna)]
      rw [Real.le_sqrt (by exact_mod_cast hd)
        (by positivity)]
      push_cast
      exact_mod_cast hsq

theorem compute_relevance_tfidf_bounds (fit : Option (TfidfVec × TfidfVec)) :
    0 ≤ compute_relevance_tfidf fit ∧ compute_relevance_tfidf fit ≤ 1 := by
  cases fit with
  | none => simp [compute_relevance_tfidf]
  | some p =>
    obtain ⟨jd, resume⟩ := p
    exact cosineSim_nonneg_le_one jd.entries resume.entries jd.nonneg resume.nonneg

/-- Claim C3 (confirmed): for every pair of string inputs and every behaviour
of the external vectorizers (any TF-IDF rows, any embedding similarity, any
raised exception), the relevance estimator returns a value in `[0, 1]`, both
through the embedding path of `ats_similarity_score_sbert` and through the
TF-IDF fallback `compute_relevance_tfidf`; in the total embedding, every
exceptional path of the source is a value-returning branch, so no exception
escapes. -/
theorem relevance_estimator_bounded :
    ∀ (resume_text jd_text : String) (sbert_model sbert_enabled : Bool)
      (stop_words : Option (List String)) (encodeSim : Except Unit ℝ)
      (fit : Option (TfidfVec × TfidfVec)),
      (0 ≤ ats_similarity_score_sbert resume_text jd_text sbert_model sbert_enabled
          stop_words encodeSim fit ∧
        ats_similarity_score_sbert resume_text jd_text sbert_model sbert_enabled
          stop_words encodeSim fit ≤ 1) ∧
      (0 ≤ compute_relevance_tfidf fit ∧ compute_relevance_tfidf fit ≤ 1) := by
  intro resume_text jd_text sbert_model sbert_enabled stop_words encodeSim fit
  refine ⟨?_, compute_relevance_tfidf_bounds fit⟩
  simp only [ats_similarity_score_sbert]
  split
  · exact compute_relevance_tfidf_bounds fit
  · split
    · norm_num
    · split
      · exact ⟨le_max_left _ _, max_le zero_le_one (min_le_left _ _)⟩
      · exact compute_relevance_tfidf_bounds fit

/-! ## Lemmas about the text cleaner -/

theorem toList_mk (l : List Char) : (String.mk l).toList = l := rfl

theorem azNotWs {c : Char} (h : isAZ c = true) : isWsChar c = false := by
  simp only [isAZ, decide_eq_true_eq] at h
  obtain ⟨h1, h2⟩ := h
  simp only [isWsChar]
  rw [decide_eq_false_iff_not]
  push_neg
  refine ⟨?_, ?_, ?_, ?_, ?_, ?_⟩ <;> (rintro rfl; exact absurd h1 (by decide))

theorem pyLower_az {c : Char} (h : isAZ c = true) : pyLower c = c := by
  simp only [isAZ, decide_eq_true_eq] at h
  obtain ⟨h1, h2⟩ := h
  rw [pyLower, if_neg]
  rintro ⟨g1, g2⟩
  exact absurd (le_trans h1 g2) (by decide)

theorem keepAZWs_az {c : Char} (h : isAZ c = true) : keepAZWs c = c := by
  rw [keepAZWs, if_pos (Or.inl h)]

theorem keepAZWs_class (c : Char) : isAZ (keepAZWs c) = true ∨ isWsChar (keepAZWs c) = true := by
  rw [keepAZWs]
  split_ifs with h
  · exact h
  · right; decide

theorem splitWCore_cons (c : Char) (cs : List Char) :
    splitWCore (c :: cs) =
      if isWsChar c then [] :: splitWCore cs
      else
        match splitWCore cs with
        | [] => [[c]]
        | w :: ws => (c :: w) :: ws := rfl

theorem splitWCore_ne_nil (cs : List Char) : splitWCore cs ≠ [] := by
  induction cs with
  | nil => simp [splitWCore]
  | cons c cs ih =>
    rw [splitWCore_cons]
    split_ifs
    · simp
    · cases h : splitWCore cs <;> simp

theorem splitWCore_ws_cons (c : Char) (t : List Char) (hc : isWsChar c = true) :
    splitWCore (c :: t) = [] :: splitWCore t := by
  rw [splitWCore_cons, if_pos hc]

theorem splitWCore_append (w t : List Char) (hw : ∀ c ∈ w, isWsChar c = false) :
    splitWCore (w ++ t) = (w ++ (splitWCore t).headI) :: (splitWCore t).tail := by
  induction w with
  | nil =>
    simp only [List.nil_append]
    cases h : splitWCore t with
    | nil => exact absurd h (splitWCore_ne_nil t)
    | cons x xs => simp
  | cons c w ih =>
    have hc : isWsChar c = false := hw c (List.mem_cons_self _ _)
    have hw' : ∀ x ∈ w, isWsChar x = false := fun x hx => hw x (List.mem_cons_of_mem _ hx)
    rw [List.cons_append, splitWCore_cons, if_neg (by simp [hc]), ih hw']
    simp

theorem mem_splitWCore : ∀ (cs w : List Char), w ∈ splitWCore cs →
    ∀ c ∈ w, c ∈ cs ∧ isWsChar c = false := by
  intro cs
  induction cs with
  | nil =>
    intro w hw c hc
    simp only [splitWCore, List.foldr_nil, List.mem_singleton] at hw
    subst hw
    simp at hc
  | cons x xs ih =>
    intro w hw c hc
    rw [splitWCore_cons] at hw
    by_cases hx : isWsChar x = true
    · rw [if_pos hx] at hw
      rcases List.mem_cons.mp hw with h | h
      · subst h; simp at hc
      · obtain ⟨h1, h2⟩ := ih w h c hc
        exact ⟨List.mem_cons_of_mem _ h1, h2⟩
    · rw [if_neg hx] at hw
      cases hsc : splitWCore xs with
      | nil => exact absurd hsc (splitWCore_ne_nil xs)
      | cons v vs =>
        rw [hsc] at hw
        rcases List.mem_cons.mp hw with h | h
        · subst h
          rcases List.mem_cons.mp hc with h | h
          · subst h
            exact ⟨List.mem_cons_self _ _, by simpa using hx⟩
          · have hm := ih v (by rw [hsc]; exact List.mem_cons_self _ _) c h
            exact ⟨List.mem_cons_of_mem _ hm.1, hm.2⟩
        · have hm := ih w (by rw [hsc]; exact List.mem_cons_of_mem _ h) c hc
          exact ⟨List.mem_cons_of_mem _ hm.1, hm.2⟩

theorem joinW_single (w : List Char) : joinW [w] = w := rfl

theorem joinW_cons_cons (w v : List Char) (vs : List (List Char)) :
    joinW (w :: v :: vs) = w ++ ' ' :: joinW (v :: vs) := rfl

theorem mem_joinW : ∀ (ws : List (List Char)) (c : Char), c ∈ joinW ws →
    (∃ w ∈ ws, c ∈ w) ∨ c = ' ' := by
  intro ws
  induction ws with
  | nil => intro c hc; simp [joinW] at hc
  | cons w vs ih =>
    intro c hc
    cases vs with
    | nil =>
      left
      exact ⟨w, List.mem_cons_self _ _, by simpa [joinW_single] using hc⟩
    | cons v vs' =>
      rw [joinW_cons_cons] at hc
      rcases List.mem_append.mp hc with h | h
      · left; exact ⟨w, List.mem_cons_self _ _, h⟩
      · rcases List.mem_cons.mp h with h | h
        · right; exact h
        · rcases ih c h with ⟨u, hu, hcu⟩ | h
          · left; exact ⟨u, List.mem_cons_of_mem _ hu, hcu⟩
          · right; exact h

theorem joinW_ne_nil {w : List Char} (ws : List (List Char)) (hw : w ≠ []) :
    joinW (w :: ws) ≠ [] := by
  cases ws with
  | nil => simpa [joinW_single] using hw
  | cons v vs => simp [joinW_cons_cons]

theorem splitW_joinW : ∀ ws : List (List Char),
    (∀ w ∈ ws, w ≠ [] ∧ ∀ c ∈ w, isWsChar c = false) → splitW (joinW ws) = ws := by
  intro ws
  induction ws with
  | nil => intro _; rfl
  | cons w vs ih =>
    intro h
    have hw := h w (List.mem_cons_self _ _)
    cases vs with
    | nil =>
      rw [joinW_single]
      have hsc := splitWCore_append w [] hw.2
      rw [List.append_nil, show splitWCore ([] : List Char) = [[]] from rfl] at hsc
      simp only [List.headI, List.tail] at hsc
      rw [List.append_nil] at hsc
      unfold splitW
      rw [hsc, List.filter_cons, if_pos (decide_eq_true hw.1)]
      rfl
    | cons v vs' =>
      rw [joinW_cons_cons]
      have hrest := ih (fun u hu => h u (List.mem_cons_of_mem _ hu))
      have hsc := splitWCore_append w (' ' :: joinW (v :: vs')) hw.2
      rw [splitWCore_ws_cons _ _ (by decide)] at hsc
      simp only [List.headI, List.tail] at hsc
      rw [List.append_nil] at hsc
      unfold splitW at hrest ⊢
      rw [hsc, List.filter_cons, if_pos (decide_eq_true hw.1), hrest]

theorem splitW_words (cs : List Char) (hcs : ∀ c ∈ cs, isAZ c = true ∨ isWsChar c = true) :
    ∀ w ∈ splitW cs, w ≠ [] ∧ ∀ c ∈ w, isAZ c = true := by
  intro w hw
  unfold splitW at hw
  obtain ⟨hmem, hne⟩ := List.mem_filter.mp hw
  refine ⟨by simpa using hne, ?_⟩
  intro c hc
  obtain ⟨hin, hnw⟩ := mem_splitWCore cs w hmem c hc
  rcases hcs c hin with h | h
  · exact h
  · rw [h] at hnw
    exact absurd hnw (by simp)

theorem map_id_on (f : Char → Char) : ∀ l : List Char, (∀ c ∈ l, f c = c) → l.map f = l := by
  intro l
  induction l with
  | nil => intro _; rfl
  | cons x xs ih =>
    intro h
    rw [List.map_cons, h x (List.mem_cons_self _ _),
      ih (fun c hc => h c (List.mem_cons_of_mem _ hc))]

theorem joinW_chars (ws : List (List Char)) (h : ∀ w ∈ ws, w ≠ [] ∧ ∀ c ∈ w, isAZ c = true) :
    ∀ c ∈ joinW ws, isAZ c = true ∨ c = ' ' := by
  intro c hc
  rcases mem_joinW ws c hc with ⟨w, hw, hcw⟩ | h0
  · exact Or.inl ((h w hw).2 c hcw)
  · exact Or.inr h0

/-- A string of the shape produced by `clean_text` — non-empty lowercase
words joined with single spaces, already free of the active stopwords — is a
fixed point of `clean_text`. -/
theorem clean_text_fixed (ws : List (List Char)) (S : Option (List String))
    (hws : ∀ w ∈ ws, w ≠ [] ∧ ∀ c ∈ w, isAZ c = true)
    (hfil : ∀ sw, S = some sw → sw ≠ [] → ∀ w ∈ ws, sw.contains (String.mk w) = false) :
    clean_text (String.mk (joinW ws)) S = String.mk (joinW ws) := by
  cases ws with
  | nil =>
    show clean_text "" S = ""
    rw [clean_text, if_pos rfl]
  | cons w0 vs =>
    have hne : String.mk (joinW (w0 :: vs)) ≠ "" := by
      intro hcon
      apply joinW_ne_nil vs (hws w0 (List.mem_cons_self _ _)).1
      have := congrArg String.toList hcon
      simpa using this
    have hch : ∀ c ∈ joinW (w0 :: vs), isAZ c = true ∨ c = ' ' := joinW_chars _ hws
    have hlow : (joinW (w0 :: vs)).map pyLower = joinW (w0 :: vs) := by
      apply map_id_on
      intro c hc
      rcases hch c hc with h | h
      · exact pyLower_az h
      · rw [h]; rfl
    have hkeep : (joinW (w0 :: vs)).map keepAZWs = joinW (w0 :: vs) := by
      apply map_id_on
      intro c hc
      rcases hch c hc with h | h
      · exact keepAZWs_az h
      · rw [h]; rfl
    have hsplit : splitW (joinW (w0 :: vs)) = w0 :: vs :=
      splitW_joinW _ (fun w hw => ⟨(hws w hw).1, fun c hc => azNotWs ((hws w hw).2 c hc)⟩)
    rw [clean_text, if_neg hne]
    simp only [toList_mk, hlow, hkeep, hsplit]
    cases S with
    | none => rfl
    | some sw =>
      by_cases hsw : sw = []
      · simp [hsw]
      · simp only [if_neg hsw]
        have hfil' : (w0 :: vs).filter (fun w => ! sw.contains (String.mk w)) = w0 :: vs := by
          apply List.filter_eq_self.mpr
          intro w hw
          rw [hfil sw rfl hsw w hw]
          rfl
        rw [hfil']

/-- Every output of `clean_text` is a join of non-empty lowercase words free
of the active stopwords. -/
theorem clean_text_shape (t : String) (S : Option (List String)) :
    ∃ ws : List (List Char), clean_text t S = String.mk (joinW ws) ∧
      (∀ w ∈ ws, w ≠ [] ∧ ∀ c ∈ w, isAZ c = true) ∧
      (∀ sw, S = some sw → sw ≠ [] → ∀ w ∈ ws, sw.contains (String.mk w) = false) := by
  by_cases ht : t = ""
  · refine ⟨[], ?_, by simp, by simp⟩
    rw [clean_text, if_pos ht]
    rfl
  · have hchars : ∀ c ∈ List.map keepAZWs (List.map pyLower t.toList),
        isAZ c = true ∨ isWsChar c = true := by
      intro c hc
      obtain ⟨d, _, rfl⟩ := List.mem_map.mp hc
      exact keepAZWs_class d
    have hbw : ∀ w ∈ splitW (List.map keepAZWs (List.map pyLower t.toList)),
        w ≠ [] ∧ ∀ c ∈ w, isAZ c = true := splitW_words _ hchars
    have hsplit3 :
        splitW (joinW (splitW (List.map keepAZWs (List.map pyLower t.toList)))) =
          splitW (List.map keepAZWs (List.map pyLower t.toList)) :=
      splitW_joinW _ (fun w hw => ⟨(hbw w hw).1, fun c hc => azNotWs ((hbw w hw).2 c hc)⟩)
    cases S with
    | none =>
      refine ⟨splitW (List.map keepAZWs (List.map pyLower t.toList)), ?_, hbw, by simp⟩
      rw [clean_text, if_neg ht]
    | some sw =>
      by_cases hsw : sw = []
      · refine ⟨splitW (List.map keepAZWs (List.map pyLower t.toList)), ?_, hbw, ?_⟩
        · rw [clean_text, if_neg ht]
          simp only [if_pos hsw]
        · intro sw' hEq hne
          obtain rfl : sw = sw' := by injection hEq
          exact absurd hsw hne
      · refine ⟨(splitW (List.map keepAZWs (List.map pyLower t.toList))).filter
          (fun w => ! sw.contains (String.mk w)), ?_, ?_, ?_⟩
        · rw [clean_text, if_neg ht]
          simp only [if_neg hsw, hsplit3]
        · intro w hw
          exact hbw w (List.mem_filter.mp hw).1
        · intro sw' hEq hne w hw
          obtain rfl : sw = sw' := by injection hEq
          have hp := (List.mem_filter.mp hw).2
          simpa using hp

/-- Claim C10 (confirmed): `clean_text` is idempotent — cleaning an already
cleaned text (with the same stopword set) returns it unchanged, for every
input string and every optional stopword set. -/
theorem clean_text_idempotent :
    ∀ (t : String) (S : Option (List String)),
      clean_text (clean_text t S) S = clean_text t S := by
  intro t S
  obtain ⟨ws, hout, hw, hf⟩ := clean_text_shape t S
  rw [hout]
  exact clean_text_fixed ws S hw hf
